import Mathlib

/-!
Shallow embedding of the mining-pool share-processing core: the share
pipeline of pool/core/pool.go (Pool.ProcessShare, PoolCore.SubmitShare,
validateShareBasic, isJobActive), the job hashing helpers of
pool/core/job.go (hashJob, checkDifficulty), the fraud inspector of
pool/security/auth.go (EvaluateShare, LogRequest, checkNonceReuse,
markToken, Check, cleanGreylist, extractSubnet, pruneOld) and the
in-memory share store of the core package (internalStore).

Modelling conventions:
* Time is `Int`, in whole seconds; every duration constant of the Go
  source is a whole number of seconds so all comparisons carry over
  unchanged.  The several `time.Now()` readings taken inside one
  operation (microseconds apart in the source) are modelled as a single
  `now` argument.  Go's `time.Time.IsZero` is modelled as `t = 0`.
* Go maps are association lists with `lookupA` / `insertA`; iteration
  that deletes entries is a `filter`.
* Go strings are Lean `String`s; Go's byte-wise `<` on strings is
  `lexLess` on the character lists, which coincides with it on the ASCII
  data the pool compares (hex digests, targets).
* `extractSubnet` parses dotted-quad IPv4 addresses exactly; all other
  inputs (IPv6 and unparseable strings) are returned raw, matching the
  unparseable branch of the source.  `strings.TrimSpace` is modelled by
  trimming whitespace characters.
* The `ShareStore` interface is a record of operations over an abstract
  state type; `internalStoreOps` is the concrete instance from the
  source's in-memory store.  A nil `Pool.ShareStore` is `none`.
-/

namespace MiningPool

/-- Association-list lookup, modelling a Go map read (first binding wins). -/
def lookupA {α : Type} : List (String × α) → String → Option α
  | [], _ => none
  | (k, v) :: rest, key => if k = key then some v else lookupA rest key

/-- Association-list update, modelling a Go map assignment. -/
def insertA {α : Type} : List (String × α) → String → α → List (String × α)
  | [], key, v => [(key, v)]
  | (k, w) :: rest, key, v =>
      if k = key then (key, v) :: rest else (k, w) :: insertA rest key v

/-- Threat levels of the fraud inspector (security/auth.go). -/
inductive ThreatLevel where
  | NoThreat
  | Warn
  | Block
deriving DecidableEq

/-- Verdict returned by the fraud inspector. -/
structure Verdict where
  Flagged : Bool
  Reason : String
  Level : ThreatLevel
deriving DecidableEq

/-- Constant `_windowSpan` (15 s). -/
def windowSpan : Int := 15

/-- Constant `_maxRequestsPerSubnet`. -/
def maxRequestsPerSubnet : Nat := 20

/-- Constant `_nonceReuseWarn`. -/
def nonceReuseWarn : Nat := 3

/-- Constant `_nonceReuseBlock`. -/
def nonceReuseBlock : Nat := 10

/-- Constant `_greylistTimeout` (3 min). -/
def greylistTimeout : Int := 180

/-- Constant `_clockSkewTolerance` (2 min). -/
def clockSkewTolerance : Int := 120

/-- The inspector's mutable state (struct `state` in security/auth.go). -/
structure FraudState where
  Greylist : List (String × Int)
  Subnets : List (String × List Int)
  Tokens : List (String × List Int)
  NonceMap : List (String × List (String × Int))
deriving DecidableEq

/-- The empty inspector state built by `LaunchInspector`. -/
def emptyFraud : FraudState := ⟨[], [], [], []⟩

/-- Whitespace trimming, modelling `strings.TrimSpace` (ASCII range). -/
def trimChars (cs : List Char) : List Char :=
  ((cs.dropWhile Char.isWhitespace).reverse.dropWhile Char.isWhitespace).reverse

/-- Split a character list on dots. -/
def splitOnDot : List Char → List (List Char)
  | [] => [[]]
  | c :: rest =>
      match splitOnDot rest with
      | [] => [[c]]
      | g :: gs => if c = '.' then [] :: g :: gs else (c :: g) :: gs

/-- Parse one decimal IPv4 octet: 1-3 digits, value at most 255, no
leading zero (as in Go's `net.ParseIP` since Go 1.17). -/
def octetVal (cs : List Char) : Option Nat :=
  if cs.length = 0 ∨ 3 < cs.length then none
  else if ¬ cs.all Char.isDigit then none
  else if 1 < cs.length ∧ cs.take 1 = ['0'] then none
  else
    let v := cs.foldl (fun a c => a * 10 + (c.toNat - 48)) 0
    if v ≤ 255 then some v else none

/-- Decimal rendering of an octet value (0-255). -/
def decOctet (n : Nat) : String :=
  if n < 10 then String.mk [Char.ofNat (48 + n)]
  else if n < 100 then String.mk [Char.ofNat (48 + n / 10), Char.ofNat (48 + n % 10)]
  else String.mk [Char.ofNat (48 + n / 100), Char.ofNat (48 + (n / 10) % 10), Char.ofNat (48 + n % 100 % 10)]

/-- Subnet key extraction (`extractSubnet` in security/auth.go): a
dotted-quad IPv4 address is masked to its /24 network; any other input is
returned unchanged, as the source does for unparseable addresses. -/
def extractSubnet (ipStr : String) : String :=
  match splitOnDot (trimChars ipStr.toList) with
  | [a, b, c, d] =>
      match octetVal a, octetVal b, octetVal c, octetVal d with
      | some x, some y, some z, some _ =>
          decOctet x ++ "." ++ decOctet y ++ "." ++ decOctet z ++ ".0"
      | _, _, _, _ => ipStr
  | _ => ipStr

/-- Sliding-window pruning (`pruneOld`): keep timestamps within the window. -/
def pruneOld (ts : List Int) (now : Int) : List Int :=
  ts.filter (fun t => now - t ≤ windowSpan)

/-- Request logging (`Inspector.LogRequest`): append `now` to the pruned
subnet window and to the pruned token (nonce) window, then grade. -/
def logRequest (st : FraudState) (ipOrSubnet token : String) (now : Int) :
    ThreatLevel × FraudState :=
  let subnet := extractSubnet ipOrSubnet
  let recTs := pruneOld ((lookupA st.Subnets subnet).getD []) now ++ [now]
  let st1 : FraudState := { st with Subnets := insertA st.Subnets subnet recTs }
  let uTs := pruneOld ((lookupA st1.Tokens token).getD []) now ++ [now]
  let st2 : FraudState := { st1 with Tokens := insertA st1.Tokens token uTs }
  if maxRequestsPerSubnet < recTs.length then
    (ThreatLevel.Block, { st2 with Greylist := insertA st2.Greylist subnet now })
  else if nonceReuseWarn ≤ uTs.length ∧ uTs.length < nonceReuseBlock then
    (ThreatLevel.Warn, st2)
  else if nonceReuseBlock ≤ uTs.length then
    (ThreatLevel.Block, st2)
  else
    (ThreatLevel.NoThreat, st2)

/-- Nonce-reuse detection per miner (`Inspector.checkNonceReuse`). -/
def checkNonceReuse (st : FraudState) (minerID nonce : String) (now : Int) :
    (ThreatLevel × String) × FraudState :=
  let inner0 := (lookupA st.NonceMap minerID).getD []
  let inner1 := inner0.filter (fun p => ¬ windowSpan < now - p.2)
  let seen := (lookupA inner1 nonce).isSome
  let inner2 := insertA inner1 nonce now
  let st1 : FraudState := { st with NonceMap := insertA st.NonceMap minerID inner2 }
  if seen then ((ThreatLevel.Warn, "nonce reuse by miner within window"), st1)
  else ((ThreatLevel.NoThreat, ""), st1)

/-- Hash-reuse detection (`Inspector.markToken`). -/
def markToken (st : FraudState) (token : String) (now : Int) :
    (ThreatLevel × String) × FraudState :=
  if token = "" then ((ThreatLevel.NoThreat, ""), st)
  else
    let uTs := pruneOld ((lookupA st.Tokens token).getD []) now ++ [now]
    let st1 : FraudState := { st with Tokens := insertA st.Tokens token uTs }
    if nonceReuseBlock ≤ uTs.length then
      ((ThreatLevel.Block, "hash reuse over hard threshold"), st1)
    else if nonceReuseWarn ≤ uTs.length then
      ((ThreatLevel.Warn, "hash reuse approaching threshold"), st1)
    else
      ((ThreatLevel.NoThreat, ""), st1)

/-- Greylist membership check (`Inspector.Check`). -/
def checkGreylisted (st : FraudState) (subnet : String) (now : Int) : Bool :=
  match lookupA st.Greylist subnet with
  | none => false
  | some added => now - added ≤ greylistTimeout

/-- Share evaluation (`EvaluateShare` in security/auth.go): clock-skew
gate, then subnet/token rate grading, nonce reuse, hash reuse, and the
greylist check, in source order; the Warn result of `LogRequest` is
dropped by the empty branch of the source. -/
def evaluateShare (st : FraudState) (minerID ip nonce hash : String) (ts now : Int) :
    Verdict × FraudState :=
  if ts = 0 ∨ now + clockSkewTolerance < ts ∨ clockSkewTolerance < now - ts then
    (⟨true, "clock skew out of tolerance", ThreatLevel.Warn⟩, st)
  else
    let subnet := extractSubnet ip
    let lr := logRequest st subnet nonce now
    if lr.1 = ThreatLevel.Block then
      (⟨true, "rate limit subnet/24 exceeded (greylisted)", ThreatLevel.Block⟩, lr.2)
    else
      let nr := checkNonceReuse lr.2 minerID nonce now
      if nr.1.1 = ThreatLevel.Block then (⟨true, nr.1.2, ThreatLevel.Block⟩, nr.2)
      else if nr.1.1 = ThreatLevel.Warn then (⟨true, nr.1.2, ThreatLevel.Warn⟩, nr.2)
      else
        let mt := markToken nr.2 hash now
        if mt.1.1 = ThreatLevel.Block then (⟨true, mt.1.2, ThreatLevel.Block⟩, mt.2)
        else if mt.1.1 = ThreatLevel.Warn then (⟨true, mt.1.2, ThreatLevel.Warn⟩, mt.2)
        else if checkGreylisted mt.2 subnet now then
          (⟨true, "subnet greylisted", ThreatLevel.Block⟩, mt.2)
        else
          (⟨false, "", ThreatLevel.NoThreat⟩, mt.2)

/-- One tick of the background sweeper (`Inspector.cleanGreylist` loop
body): drop greylist entries older than the greylist timeout.  The
sweeper touches no other field of the state. -/
def cleanGreylistStep (st : FraudState) (now : Int) : FraudState :=
  { st with Greylist := st.Greylist.filter (fun p => ¬ greylistTimeout < now - p.2) }

/-- Share statuses (core package). -/
inductive ShareStatus where
  | ShareAccepted
  | ShareDuplicate
  | ShareStale
  | ShareInvalid
deriving DecidableEq

/-- A submitted share (struct `Share`).  `Diff` models the float64
difficulty field; it is carried but never inspected by the embedded
code paths. -/
structure Share where
  ID : String
  JobID : String
  WorkerID : String
  Nonce : String
  Hash : String
  Diff : Rat
  Timestamp : Int
  IP : String
deriving DecidableEq

/-- A mining job (struct `Job` in pool/core/job.go, minus its mutex). -/
structure Job where
  ID : String
  Data : String
  Target : String
  CreatedAt : Int
  ExpiresAt : Int
  BlockHeight : Int
  Active : Bool
deriving DecidableEq

/-- Result of processing a share (struct `ShareResult`); Go `error`
values are modelled as `Option String`. -/
structure ShareResult where
  Status : ShareStatus
  Description : String
  Error : Option String
  Valid : Bool
deriving DecidableEq

/-- Basic shape validation (`validateShareBasic` in pool/core/pool.go):
required string fields non-empty (including `Hash`), and the timestamp
neither zero nor more than five minutes in the past.  The source checks
nothing else: no future-timestamp bound, no nonce format, no difficulty. -/
def validateShareBasic (s : Share) (now : Int) : Option String :=
  if s.JobID = "" ∨ s.WorkerID = "" ∨ s.Nonce = "" ∨ s.Hash = "" then
    some "missing required fields"
  else if s.Timestamp = 0 ∨ 300 < now - s.Timestamp then
    some "timestamp out of range"
  else
    none

/-- Job liveness (`Pool.isJobActive`): the job must be present in the
facade's active-job map and younger than the pool's job TTL, measured
from `CreatedAt`.  The job's own `ExpiresAt` field is not consulted. -/
def isJobActive (activeJobs : List (String × Job)) (ttlJob : Int)
    (jobID : String) (now : Int) : Bool :=
  if jobID = "" then false
  else
    match lookupA activeJobs jobID with
    | none => false
    | some j => now - j.CreatedAt ≤ ttlJob

/-- State of the in-memory share store (`internalStore` in the core
package): saved shares by id, and the cleanup TTL. -/
structure InternalStore where
  entries : List (String × Share)
  ttl : Int
deriving DecidableEq

/-- The `ShareStore` interface consumed by the pool: `Exists` returns a
boolean and an error and may mutate internal state; `Save` returns an
error.  Both take the current time (stores may consult the clock). -/
structure StoreOps (σ : Type) where
  existsFn : σ → Int → String → (Bool × Option String) × σ
  saveFn : σ → Int → Share → Option String × σ

/-- The in-memory store's operations: `Exists` first runs `cleanup`
(dropping entries whose share timestamp is before `now - ttl`) and then
looks the id up; `Save` stores the share under its id.  Neither errors. -/
def internalStoreOps : StoreOps InternalStore where
  existsFn := fun st now id =>
    let cleaned := st.entries.filter (fun p => ¬ p.2.Timestamp < now - st.ttl)
    (((lookupA cleaned id).isSome, none), { st with entries := cleaned })
  saveFn := fun st _ sh => (none, { st with entries := insertA st.entries sh.ID sh })

/-- Output of one `Pool.ProcessShare` call: the `ShareResult`, the Go
function's second return value, and the threaded fraud-inspector and
store states. -/
structure ProcOut (σ : Type) where
  result : ShareResult
  retErr : Option String
  fraud : FraudState
  store : Option σ
deriving DecidableEq

/-- The share-processing pipeline (`Pool.ProcessShare`): shape check,
job binding, fraud screen (rejecting on any flagged verdict), then — only
when a store is present — the duplicate check and the save.  There is no
cryptographic gate: `hashJob`/`checkDifficulty` are never invoked here. -/
def processShare {σ : Type} (ops : StoreOps σ) (activeJobs : List (String × Job))
    (ttlJob : Int) (fraud : FraudState) (store : Option σ) (s : Share) (now : Int) :
    ProcOut σ :=
  match validateShareBasic s now with
  | some err =>
      ⟨⟨ShareStatus.ShareInvalid, "basic validation failed", some err, false⟩,
        some err, fraud, store⟩
  | none =>
    if ¬ isJobActive activeJobs ttlJob s.JobID now then
      ⟨⟨ShareStatus.ShareInvalid, "job not active or expired",
          some "job not active or expired", false⟩, none, fraud, store⟩
    else
      let ev := evaluateShare fraud s.WorkerID s.IP s.Nonce s.Hash s.Timestamp now
      if ev.1.Flagged then
        ⟨⟨ShareStatus.ShareInvalid, "blocked by antifraud: " ++ ev.1.Reason,
            some "antifraud rejection", false⟩, none, ev.2, store⟩
      else
        match store with
        | none =>
            ⟨⟨ShareStatus.ShareAccepted, "share accepted", none, true⟩,
              none, ev.2, none⟩
        | some st =>
            let ex := ops.existsFn st now s.ID
            if ex.1.2 = none ∧ ex.1.1 = true then
              ⟨⟨ShareStatus.ShareAccepted, "duplicate share ignored", none, true⟩,
                none, ev.2, some ex.2⟩
            else
              let sv := ops.saveFn ex.2 now s
              if sv.1 = none then
                ⟨⟨ShareStatus.ShareAccepted, "share accepted", none, true⟩,
                  none, ev.2, some sv.2⟩
              else
                ⟨⟨ShareStatus.ShareInvalid, "failed to persist share", sv.1, false⟩,
                  sv.1, ev.2, some sv.2⟩

/-- A worker record (struct `Worker`), restricted to the fields read by
`SubmitShare`. -/
structure Worker where
  ID : String
  connected : Bool
deriving DecidableEq

/-- The engine state (struct `PoolCore`). -/
structure PoolCoreState where
  workers : List (String × Worker)
  activeJobs : List (String × Job)
  workerShares : List (String × List Share)
  lastSubmission : List (String × Int)
  ttlJob : Int
  interval : Int
deriving DecidableEq

/-- `InitPool`: empty maps with the given TTL and rate interval. -/
def initPool (ttl rate : Int) : PoolCoreState := ⟨[], [], [], [], ttl, rate⟩

/-- Share submission to the engine (`PoolCore.SubmitShare`): nil-share
guard, job existence and freshness, worker activity, then the per-worker
rate limit; on success the submission time and share list are recorded. -/
def submitShare (pc : PoolCoreState) (wid : String) (s : Option Share) (now : Int) :
    Option String × PoolCoreState :=
  match s with
  | none => (some "nil share", pc)
  | some sh =>
    match lookupA pc.activeJobs sh.JobID with
    | none => (some "invalid or expired job", pc)
    | some job =>
      if pc.ttlJob < now - job.CreatedAt then (some "invalid or expired job", pc)
      else
        match lookupA pc.workers wid with
        | none => (some "worker not active", pc)
        | some w =>
          if ¬ w.connected then (some "worker not active", pc)
          else
            let rateHit : Bool :=
              match lookupA pc.lastSubmission wid with
              | some last => decide (now - last < pc.interval)
              | none => false
            if rateHit then (some "rate limit exceeded", pc)
            else
              (none,
                { pc with
                  lastSubmission := insertA pc.lastSubmission wid now,
                  workerShares :=
                    insertA pc.workerShares wid
                      ((lookupA pc.workerShares wid).getD [] ++ [sh]) })

/-- Run a sequence of `SubmitShare` calls (the linearisation of
concurrent submitters under the engine's mutex; each event carries the
clock value its goroutine read before taking the lock).  Returns the
final state and, per event, the worker id, that clock value, and whether
the submission was accepted. -/
def runSubmits (pc : PoolCoreState) :
    List (String × Share × Int) → PoolCoreState × List (String × Int × Bool)
  | [] => (pc, [])
  | (wid, sh, now) :: rest =>
      let r := submitShare pc wid (some sh) now
      let rr := runSubmits r.2 rest
      (rr.1, (wid, now, r.1.isNone) :: rr.2)

/-- Clock values of the accepted submissions of worker `w`, in run order. -/
def acceptedNows (w : String) (outs : List (String × Int × Bool)) : List Int :=
  (outs.filter (fun o => o.1 = w ∧ o.2.2 = true)).map (fun o => o.2.1)

/-- Addition modulo 2^32. -/
def add32 (a b : Nat) : Nat := (a + b) % 4294967296

/-- Right rotation of a 32-bit word. -/
def rotr32 (n w : Nat) : Nat := ((w >>> n) ||| (w <<< (32 - n))) % 4294967296

/-- SHA-256 round constants (decimal rendering of the standard table). -/
def sha256K : List Nat :=
  [1116352408, 1899447441, 3049323471, 3921009573, 961987163,
   1508970993, 2453635748, 2870763221, 3624381080, 310598401,
   607225278, 1426881987, 1925078388, 2162078206, 2614888103,
   3248222580, 3835390401, 4022224774, 264347078, 604807628,
   770255983, 1249150122, 1555081692, 1996064986, 2554220882,
   2821834349, 2952996808, 3210313671, 3336571891, 3584528711,
   113926993, 338241895, 666307205, 773529912, 1294757372,
   1396182291, 1695183700, 1986661051, 2177026350, 2456956037,
   2730485921, 2820302411, 3259730800, 3345764771, 3516065817,
   3600352804, 4094571909, 275423344, 430227734, 506948616,
   659060556, 883997877, 958139571, 1322822218, 1537002063,
   1747873779, 1955562222, 2024104815, 2227730452, 2361852424,
   2428436474, 2756734187, 3204031479, 3329325298]

/-- The SHA-256 working variables. -/
structure Sha256State where
  a : Nat
  b : Nat
  c : Nat
  d : Nat
  e : Nat
  f : Nat
  g : Nat
  hh : Nat
deriving DecidableEq

/-- SHA-256 initial hash value (decimal rendering). -/
def sha256Init : Sha256State :=
  ⟨1779033703, 3144134277, 1013904242, 2773480762,
   1359893119, 2600822924, 528734635, 1541459225⟩

/-- Message-schedule sigma functions. -/
def smallSigma0 (x : Nat) : Nat := (rotr32 7 x) ^^^ (rotr32 18 x) ^^^ (x >>> 3)

/-- Second message-schedule sigma function. -/
def smallSigma1 (x : Nat) : Nat := (rotr32 17 x) ^^^ (rotr32 19 x) ^^^ (x >>> 10)

/-- Compression sigma functions. -/
def bigSigma0 (x : Nat) : Nat := (rotr32 2 x) ^^^ (rotr32 13 x) ^^^ (rotr32 22 x)

/-- Second compression sigma function. -/
def bigSigma1 (x : Nat) : Nat := (rotr32 6 x) ^^^ (rotr32 11 x) ^^^ (rotr32 25 x)

/-- Extend a 16-word block to the 64-word message schedule. -/
def sha256Schedule (block : List Nat) : List Nat :=
  (List.range 48).foldl
    (fun w _ =>
      let n := w.length
      w ++ [(add32 (add32 (smallSigma1 (w.getD (n - 2) 0)) (w.getD (n - 7) 0))
              (add32 (smallSigma0 (w.getD (n - 15) 0)) (w.getD (n - 16) 0)))])
    block

/-- One SHA-256 round with the combined constant-plus-schedule word. -/
def sha256Round (st : Sha256State) (kw : Nat) : Sha256State :=
  let ch := (st.e &&& st.f) ^^^ ((st.e ^^^ 0xffffffff) &&& st.g)
  let maj := (st.a &&& st.b) ^^^ (st.a &&& st.c) ^^^ (st.b &&& st.c)
  let t1 := add32 (add32 st.hh (bigSigma1 st.e)) (add32 ch kw)
  let t2 := add32 (bigSigma0 st.a) maj
  ⟨add32 t1 t2, st.a, st.b, st.c, add32 st.d t1, st.e, st.f, st.g⟩

/-- Compress one block into the running state. -/
def sha256Compress (st : Sha256State) (block : List Nat) : Sha256State :=
  let ws := sha256Schedule block
  let kws := List.zipWith add32 sha256K ws
  let r := kws.foldl sha256Round st
  ⟨add32 st.a r.a, add32 st.b r.b, add32 st.c r.c, add32 st.d r.d,
   add32 st.e r.e, add32 st.f r.f, add32 st.g r.g, add32 st.hh r.hh⟩

/-- Split a list into chunks of `n` elements (empty for `n = 0`). -/
def chunkList {α : Type} : Nat → List α → List (List α)
  | _, [] => []
  | 0, _ :: _ => []
  | n + 1, x :: xs => ((x :: xs).take (n + 1)) :: chunkList (n + 1) ((x :: xs).drop (n + 1))
termination_by _ l => l.length
decreasing_by
  simp only [List.length_drop, List.length_cons]
  omega

/-- Group bytes into big-endian 32-bit words. -/
def bytesToWords (bs : List Nat) : List Nat :=
  (chunkList 4 bs).map (fun c =>
    c.getD 0 0 * 16777216 + c.getD 1 0 * 65536 + c.getD 2 0 * 256 + c.getD 3 0)

/-- Big-endian bytes of a 32-bit word. -/
def wordBytes (w : Nat) : List Nat :=
  [(w >>> 24) % 256, (w >>> 16) % 256, (w >>> 8) % 256, w % 256]

/-- SHA-256 of a byte sequence (the `crypto/sha256` primitive used by
`hashJob`): pad to a 64-byte boundary with 0x80, zeros and the 64-bit
big-endian bit length, then compress each block. -/
def sha256 (msg : List Nat) : List Nat :=
  let len := msg.length
  let padZ := (119 - len % 64) % 64
  let lenBits := 8 * len
  let padded := msg ++ [0x80] ++ List.replicate padZ 0 ++
    (List.range 8).map (fun i => (lenBits >>> (8 * (7 - i))) % 256)
  let blocks := chunkList 64 padded
  let r := blocks.foldl (fun st b => sha256Compress st (bytesToWords b)) sha256Init
  wordBytes r.a ++ wordBytes r.b ++ wordBytes r.c ++ wordBytes r.d ++
    wordBytes r.e ++ wordBytes r.f ++ wordBytes r.g ++ wordBytes r.hh

/-- Byte sequence of a string (Go `[]byte(s)`; coincides with UTF-8 on
the ASCII data hashed by the pool). -/
def strBytes (s : String) : List Nat := s.toList.map Char.toNat

/-- Lower-case hex digit table (the `hextable` of `encoding/hex`). -/
def hexTable : List Char := "0123456789abcdef".toList

/-- Hex digit at index `n` of the table. -/
def hexDigit (n : Nat) : Char := hexTable.getD n '0'

/-- Hex encoding of bytes (`encoding/hex.EncodeToString`). -/
def hexEncode (bs : List Nat) : String :=
  String.mk (bs.foldr (fun b acc => hexDigit (b / 16) :: hexDigit (b % 16) :: acc) [])

/-- Go's byte-wise string comparison `a < b`, on character lists. -/
def lexLess : List Char → List Char → Bool
  | _, [] => false
  | [], _ :: _ => true
  | a :: as, b :: bs => if a < b then true else if b < a then false else lexLess as bs

/-- Digest of a job's data plus a nonce (`hashJob` in pool/core/job.go). -/
def hashJob (data nonce : String) : String := hexEncode (sha256 (strBytes (data ++ nonce)))

/-- Target comparison (`checkDifficulty` in pool/core/job.go): the hex
digest must compare lexicographically below the target. -/
def checkDifficulty (hash target : String) : Bool :=
  lexLess hash.toList target.toList

/-- The 64-zero target string used to witness that every hex digest
compares greater-or-equal to an all-zeros target. -/
def zeros64 : String := String.mk (List.replicate 64 '0')

theorem lookupA_insertA_self {α : Type} (l : List (String × α)) (k : String) (v : α) :
    lookupA (insertA l k v) k = some v := by
  induction l with
  | nil => simp [insertA, lookupA]
  | cons p rest ih =>
      by_cases h : p.1 = k
      · simp [insertA, h, lookupA]
      · simp [insertA, h, lookupA, ih]

theorem lookupA_insertA_ne {α : Type} (l : List (String × α)) (k k' : String) (v : α)
    (h : k ≠ k') : lookupA (insertA l k v) k' = lookupA l k' := by
  induction l with
  | nil => simp [insertA, lookupA, h]
  | cons p rest ih =>
      by_cases hp : p.1 = k
      · simp [insertA, hp, lookupA, h]
      · simp only [insertA, hp, if_neg hp, lookupA]
        by_cases hq : p.1 = k'
        · simp [hq]
        · simp [hq, ih]

theorem lookupA_filter {α : Type} (l : List (String × α)) (k : String) (v : α)
    (p : String × α → Bool) (hv : lookupA l k = some v) (hp : p (k, v) = true) :
    lookupA (l.filter p) k = some v := by
  induction l with
  | nil => simp [lookupA] at hv
  | cons q rest ih =>
      obtain ⟨k0, v0⟩ := q
      by_cases hq : k0 = k
      · subst hq
        simp only [lookupA, if_pos rfl] at hv
        injection hv with hv
        subst hv
        simp [List.filter, hp, lookupA]
      · simp only [lookupA, if_neg hq] at hv
        cases hpq : p (k0, v0)
        · simp [List.filter, hpq, ih hv]
        · simp [List.filter, hpq, lookupA, hq, ih hv]

theorem hexDigit_ge (n : Nat) : '0' ≤ hexDigit n := by
  unfold hexDigit hexTable
  rcases Nat.lt_or_ge n 16 with h | h
  · interval_cases n <;> decide
  · rw [List.getD_eq_default]
    · simp
      omega

theorem hexEncode_data (bs : List Nat) :
    (hexEncode bs).data =
      bs.foldr (fun b acc => hexDigit (b / 16) :: hexDigit (b % 16) :: acc) [] := rfl

theorem hexEncode_chars (bs : List Nat) : ∀ c ∈ (hexEncode bs).data, '0' ≤ c := by
  induction bs with
  | nil => intro c hc; simp [hexEncode_data] at hc
  | cons b rest ih =>
      intro c hc
      rw [hexEncode_data] at hc
      simp only [List.foldr] at hc
      rcases List.mem_cons.mp hc with hc | hc
      · exact hc ▸ hexDigit_ge _
      · rcases List.mem_cons.mp hc with hc | hc
        · exact hc ▸ hexDigit_ge _
        · exact ih c (by rw [hexEncode_data]; exact hc)

theorem hexEncode_length (bs : List Nat) : (hexEncode bs).data.length = 2 * bs.length := by
  induction bs with
  | nil => rfl
  | cons b rest ih =>
      rw [hexEncode_data] at ih ⊢
      simp only [List.foldr, List.length_cons, List.length]
      omega

theorem sha256_length (msg : List Nat) : (sha256 msg).length = 32 := by
  simp [sha256, wordBytes]

theorem lexLess_ge_zeros : ∀ xs ys : List Char, xs.length = ys.length →
    (∀ c ∈ xs, '0' ≤ c) → (∀ c ∈ ys, c = '0') → lexLess xs ys = false := by
  intro xs
  induction xs with
  | nil =>
      intro ys hlen _ _
      cases ys with
      | nil => rfl
      | cons b bs => simp at hlen
  | cons a as ih =>
      intro ys hlen hx hy
      cases ys with
      | nil => rfl
      | cons b bs =>
          have hb : b = '0' := hy b (List.mem_cons_self _ _)
          have ha : '0' ≤ a := hx a (List.mem_cons_self _ _)
          have hnab : ¬ a < b := by rw [hb]; exact not_lt.mpr ha
          unfold lexLess
          rw [if_neg hnab]
          by_cases hba : b < a
          · rw [if_pos hba]
          · rw [if_neg hba]
            refine ih bs (by simpa using hlen) ?_ ?_
            · exact fun c hc => hx c (List.mem_cons_of_mem _ hc)
            · exact fun c hc => hy c (List.mem_cons_of_mem _ hc)

theorem checkDifficulty_hashJob_zeros (data nonce : String) :
    checkDifficulty (hashJob data nonce) zeros64 = false := by
  unfold checkDifficulty hashJob zeros64
  refine lexLess_ge_zeros _ _ ?_ ?_ ?_
  · show (hexEncode _).data.length = (List.replicate 64 '0').length
    rw [hexEncode_length, sha256_length]
    simp
  · exact hexEncode_chars _
  · intro c hc
    exact List.eq_of_mem_replicate hc

theorem lookupA_mapVal {α β : Type} (l : List (String × α)) (f : α → β) (k : String) :
    lookupA (l.map (fun p => (p.1, f p.2))) k = (lookupA l k).map f := by
  induction l with
  | nil => rfl
  | cons q rest ih =>
      obtain ⟨k0, v0⟩ := q
      by_cases hq : k0 = k
      · simp [lookupA, hq]
      · simp [lookupA, hq, ih]

theorem isJobActive_mapJob (jobs : List (String × Job)) (ttl : Int) (jid : String) (now : Int)
    (f : Job → Job) (hf : ∀ j, (f j).CreatedAt = j.CreatedAt) :
    isJobActive (jobs.map (fun p => (p.1, f p.2))) ttl jid now =
      isJobActive jobs ttl jid now := by
  unfold isJobActive
  split_ifs
  · rfl
  · rw [lookupA_mapVal]
    cases lookupA jobs jid with
    | none => rfl
    | some j =>
        dsimp only [Option.map]
        rw [hf j]

theorem processShare_basicFail {σ : Type} (ops : StoreOps σ) (jobs : List (String × Job))
    (ttl : Int) (fraud : FraudState) (store : Option σ) (s : Share) (now : Int)
    (err : String) (h : validateShareBasic s now = some err) :
    processShare ops jobs ttl fraud store s now =
      ⟨⟨ShareStatus.ShareInvalid, "basic validation failed", some err, false⟩,
        some err, fraud, store⟩ := by
  unfold processShare
  rw [h]

theorem processShare_jobFail {σ : Type} (ops : StoreOps σ) (jobs : List (String × Job))
    (ttl : Int) (fraud : FraudState) (store : Option σ) (s : Share) (now : Int)
    (h1 : validateShareBasic s now = none)
    (h2 : isJobActive jobs ttl s.JobID now = false) :
    processShare ops jobs ttl fraud store s now =
      ⟨⟨ShareStatus.ShareInvalid, "job not active or expired",
          some "job not active or expired", false⟩, none, fraud, store⟩ := by
  unfold processShare
  rw [h1]
  simp [h2]

theorem processShare_flagged {σ : Type} (ops : StoreOps σ) (jobs : List (String × Job))
    (ttl : Int) (fraud : FraudState) (store : Option σ) (s : Share) (now : Int)
    (h1 : validateShareBasic s now = none)
    (h2 : isJobActive jobs ttl s.JobID now = true)
    (h3 : (evaluateShare fraud s.WorkerID s.IP s.Nonce s.Hash s.Timestamp now).1.Flagged = true) :
    processShare ops jobs ttl fraud store s now =
      ⟨⟨ShareStatus.ShareInvalid,
          "blocked by antifraud: " ++
            (evaluateShare fraud s.WorkerID s.IP s.Nonce s.Hash s.Timestamp now).1.Reason,
          some "antifraud rejection", false⟩, none,
        (evaluateShare fraud s.WorkerID s.IP s.Nonce s.Hash s.Timestamp now).2, store⟩ := by
  unfold processShare
  rw [h1]
  simp [h2, h3]

theorem processShare_nilStore {σ : Type} (ops : StoreOps σ) (jobs : List (String × Job))
    (ttl : Int) (fraud : FraudState) (s : Share) (now : Int)
    (h1 : validateShareBasic s now = none)
    (h2 : isJobActive jobs ttl s.JobID now = true)
    (h3 : (evaluateShare fraud s.WorkerID s.IP s.Nonce s.Hash s.Timestamp now).1.Flagged = false) :
    processShare ops jobs ttl fraud none s now =
      ⟨⟨ShareStatus.ShareAccepted, "share accepted", none, true⟩, none,
        (evaluateShare fraud s.WorkerID s.IP s.Nonce s.Hash s.Timestamp now).2, none⟩ := by
  unfold processShare
  rw [h1]
  simp [h2, h3]

theorem processShare_duplicate {σ : Type} (ops : StoreOps σ) (jobs : List (String × Job))
    (ttl : Int) (fraud : FraudState) (st : σ) (s : Share) (now : Int)
    (h1 : validateShareBasic s now = none)
    (h2 : isJobActive jobs ttl s.JobID now = true)
    (h3 : (evaluateShare fraud s.WorkerID s.IP s.Nonce s.Hash s.Timestamp now).1.Flagged = false)
    (h4 : (ops.existsFn st now s.ID).1 = (true, none)) :
    processShare ops jobs ttl fraud (some st) s now =
      ⟨⟨ShareStatus.ShareAccepted, "duplicate share ignored", none, true⟩, none,
        (evaluateShare fraud s.WorkerID s.IP s.Nonce s.Hash s.Timestamp now).2,
        some (ops.existsFn st now s.ID).2⟩ := by
  unfold processShare
  rw [h1]
  simp [h2, h3, h4]

theorem processShare_valid_gates {σ : Type} (ops : StoreOps σ) (jobs : List (String × Job))
    (ttl : Int) (fraud : FraudState) (store : Option σ) (s : Share) (now : Int)
    (h : (processShare ops jobs ttl fraud store s now).result.Valid = true) :
    validateShareBasic s now = none ∧ isJobActive jobs ttl s.JobID now = true ∧
      (evaluateShare fraud s.WorkerID s.IP s.Nonce s.Hash s.Timestamp now).1.Flagged = false := by
  cases hb : validateShareBasic s now with
  | some e =>
      rw [processShare_basicFail ops jobs ttl fraud store s now e hb] at h
      simp at h
  | none =>
      cases hj : isJobActive jobs ttl s.JobID now with
      | false =>
          rw [processShare_jobFail ops jobs ttl fraud store s now hb hj] at h
          simp at h
      | true =>
          cases hf : (evaluateShare fraud s.WorkerID s.IP s.Nonce s.Hash s.Timestamp now).1.Flagged with
          | true =>
              rw [processShare_flagged ops jobs ttl fraud store s now hb hj hf] at h
              simp at h
          | false => exact ⟨rfl, rfl, rfl⟩

theorem processShare_pastGates_fraud {σ : Type} (ops : StoreOps σ) (jobs : List (String × Job))
    (ttl : Int) (fraud : FraudState) (store : Option σ) (s : Share) (now : Int)
    (h1 : validateShareBasic s now = none)
    (h2 : isJobActive jobs ttl s.JobID now = true) :
    (processShare ops jobs ttl fraud store s now).fraud =
      (evaluateShare fraud s.WorkerID s.IP s.Nonce s.Hash s.Timestamp now).2 := by
  unfold processShare
  rw [h1]
  simp only [h2, not_true, if_false]
  split
  · rfl
  · cases store with
    | none => rfl
    | some st =>
        simp only
        split
        · rfl
        · split <;> rfl

theorem logRequest_nonceMap (st : FraudState) (x tok : String) (now : Int) :
    (logRequest st x tok now).2.NonceMap = st.NonceMap := by
  unfold logRequest
  dsimp only
  split_ifs <;> rfl

theorem markToken_nonceMap (st : FraudState) (tok : String) (now : Int) :
    (markToken st tok now).2.NonceMap = st.NonceMap := by
  unfold markToken
  dsimp only
  split_ifs <;> rfl

theorem checkNonceReuse_lookup (st : FraudState) (m n : String) (now : Int) :
    lookupA ((lookupA (checkNonceReuse st m n now).2.NonceMap m).getD []) n = some now := by
  unfold checkNonceReuse
  dsimp only
  split
  all_goals
    dsimp only
    rw [lookupA_insertA_self]
    simp only [Option.getD_some]
    exact lookupA_insertA_self _ _ _

theorem evaluateShare_unflagged_nonce (st : FraudState) (m ip n hsh : String) (ts now : Int)
    (h : (evaluateShare st m ip n hsh ts now).1.Flagged = false) :
    lookupA ((lookupA (evaluateShare st m ip n hsh ts now).2.NonceMap m).getD []) n = some now := by
  unfold evaluateShare at h ⊢
  dsimp only at h ⊢
  split_ifs at h ⊢ <;> try (simp at h)
  dsimp only
  rw [markToken_nonceMap]
  exact checkNonceReuse_lookup _ _ _ _

theorem checkNonceReuse_seen (st : FraudState) (m n : String) (now t : Int)
    (hseen : lookupA ((lookupA st.NonceMap m).getD []) n = some t)
    (hwin : now - t ≤ windowSpan) :
    (checkNonceReuse st m n now).1.1 = ThreatLevel.Warn := by
  unfold checkNonceReuse
  dsimp only
  have hkeep :
      lookupA (((lookupA st.NonceMap m).getD []).filter
        (fun p => decide (¬ windowSpan < now - p.2))) n = some t := by
    refine lookupA_filter _ _ _ _ hseen ?_
    simp only [decide_eq_true_eq]
    omega
  rw [hkeep]
  simp

theorem evaluateShare_seen_flagged (st : FraudState) (m ip n hsh : String) (ts now t : Int)
    (hseen : lookupA ((lookupA st.NonceMap m).getD []) n = some t)
    (hwin : now - t ≤ windowSpan) :
    (evaluateShare st m ip n hsh ts now).1.Flagged = true := by
  have hwarn : (checkNonceReuse (logRequest st (extractSubnet ip) n now).2 m n now).1.1 =
      ThreatLevel.Warn := by
    refine checkNonceReuse_seen _ _ _ _ _ ?_ hwin
    rw [logRequest_nonceMap]
    exact hseen
  unfold evaluateShare
  dsimp only
  split_ifs with h1 h2 h3 h4 h5 h6 h7 <;> first | rfl | exact absurd hwarn h4

theorem checkNonceReuse_reasons (st : FraudState) (m n : String) (now : Int) :
    (checkNonceReuse st m n now).1.2 = "nonce reuse by miner within window" ∨
      (checkNonceReuse st m n now).1.2 = "" := by
  unfold checkNonceReuse
  dsimp only
  split_ifs <;> simp

theorem markToken_reasons (st : FraudState) (tok : String) (now : Int) :
    (markToken st tok now).1.2 = "hash reuse over hard threshold" ∨
      (markToken st tok now).1.2 = "hash reuse approaching threshold" ∨
      (markToken st tok now).1.2 = "" := by
  unfold markToken
  dsimp only
  split_ifs <;> simp

theorem evaluateShare_reasons (st : FraudState) (m ip n hsh : String) (ts now : Int) :
    (evaluateShare st m ip n hsh ts now).1.Reason ∈
      ["clock skew out of tolerance", "rate limit subnet/24 exceeded (greylisted)",
       "nonce reuse by miner within window", "hash reuse over hard threshold",
       "hash reuse approaching threshold", "subnet greylisted", ""] := by
  unfold evaluateShare
  dsimp only
  split_ifs
  · simp
  · simp
  · rcases checkNonceReuse_reasons (logRequest st (extractSubnet ip) n now).2 m n now with h | h <;>
      simp [h]
  · rcases checkNonceReuse_reasons (logRequest st (extractSubnet ip) n now).2 m n now with h | h <;>
      simp [h]
  · rcases markToken_reasons
        (checkNonceReuse (logRequest st (extractSubnet ip) n now).2 m n now).2 hsh now with
      h | h | h <;> simp [h]
  · rcases markToken_reasons
        (checkNonceReuse (logRequest st (extractSubnet ip) n now).2 m n now).2 hsh now with
      h | h | h <;> simp [h]
  · simp
  · simp

theorem logRequest_block_iff (st : FraudState) (x tok : String) (now : Int) :
    ((logRequest st x tok now).1 = ThreatLevel.Block) ↔
      (maxRequestsPerSubnet <
          (pruneOld ((lookupA st.Subnets (extractSubnet x)).getD []) now ++ [now]).length ∨
        nonceReuseBlock ≤ (pruneOld ((lookupA st.Tokens tok).getD []) now ++ [now]).length) := by
  unfold logRequest
  dsimp only
  split_ifs with h1 h2 h3
  · exact iff_of_true rfl (Or.inl h1)
  · refine iff_of_false (fun hc => nomatch hc) ?_
    rintro (hc | hc)
    · exact h1 hc
    · omega
  · exact iff_of_true rfl (Or.inr h3)
  · refine iff_of_false (fun hc => nomatch hc) ?_
    rintro (hc | hc)
    · exact h1 hc
    · exact h3 hc

theorem logRequest_greylist (st : FraudState) (x tok : String) (now : Int) :
    (logRequest st x tok now).2.Greylist =
      (if maxRequestsPerSubnet <
          (pruneOld ((lookupA st.Subnets (extractSubnet x)).getD []) now ++ [now]).length
       then insertA st.Greylist (extractSubnet x) now
       else st.Greylist) := by
  unfold logRequest
  dsimp only
  split_ifs <;> rfl

theorem submitShare_err (pc : PoolCoreState) (wid : String) (s : Option Share) (now : Int)
    (e : String) (h : (submitShare pc wid s now).1 = some e) :
    (submitShare pc wid s now).2 = pc := by
  cases s with
  | none => rfl
  | some sh =>
      cases hj : lookupA pc.activeJobs sh.JobID with
      | none => simp [submitShare, hj]
      | some job =>
          by_cases ht : pc.ttlJob < now - job.CreatedAt
          · simp [submitShare, hj, ht]
          · cases hw : lookupA pc.workers wid with
            | none => simp [submitShare, hj, ht, hw]
            | some w =>
                by_cases hc : w.connected
                · cases hl : lookupA pc.lastSubmission wid with
                  | none =>
                      simp [submitShare, hj, ht, hw, hc, hl] at h
                  | some last =>
                      by_cases hr : now - last < pc.interval
                      · simp [submitShare, hj, ht, hw, hc, hl, hr]
                      · simp [submitShare, hj, ht, hw, hc, hl, hr] at h
                · simp [submitShare, hj, ht, hw, hc]

theorem submitShare_ok (pc : PoolCoreState) (wid : String) (sh : Share) (now : Int)
    (h : (submitShare pc wid (some sh) now).1 = none) :
    (submitShare pc wid (some sh) now).2.lastSubmission = insertA pc.lastSubmission wid now ∧
    (submitShare pc wid (some sh) now).2.interval = pc.interval ∧
    (∀ t, lookupA pc.lastSubmission wid = some t → pc.interval ≤ now - t) := by
  cases hj : lookupA pc.activeJobs sh.JobID with
  | none => simp [submitShare, hj] at h
  | some job =>
      by_cases ht : pc.ttlJob < now - job.CreatedAt
      · simp [submitShare, hj, ht] at h
      · cases hw : lookupA pc.workers wid with
        | none => simp [submitShare, hj, ht, hw] at h
        | some w =>
            by_cases hc : w.connected
            · cases hl : lookupA pc.lastSubmission wid with
              | none =>
                  refine ⟨?_, ?_, ?_⟩
                  · simp [submitShare, hj, ht, hw, hc, hl]
                  · simp [submitShare, hj, ht, hw, hc, hl]
                  · intro t hts
                    exact absurd hts (by simp)
              | some last =>
                  by_cases hr : now - last < pc.interval
                  · simp [submitShare, hj, ht, hw, hc, hl, hr] at h
                  · refine ⟨?_, ?_, ?_⟩
                    · simp [submitShare, hj, ht, hw, hc, hl, hr]
                    · simp [submitShare, hj, ht, hw, hc, hl, hr]
                    · intro t hts
                      injection hts with hts
                      subst hts
                      omega
            · simp [submitShare, hj, ht, hw, hc] at h

theorem submitShare_interval (pc : PoolCoreState) (wid : String) (s : Option Share) (now : Int) :
    (submitShare pc wid s now).2.interval = pc.interval := by
  cases he : (submitShare pc wid s now).1 with
  | some e => rw [submitShare_err pc wid s now e he]
  | none =>
      cases s with
      | none => simp [submitShare] at he
      | some sh => exact (submitShare_ok pc wid sh now he).2.1

theorem acceptedNows_cons (w wid : String) (now : Int) (acc : Bool)
    (outs : List (String × Int × Bool)) :
    acceptedNows w ((wid, now, acc) :: outs) =
      if wid = w ∧ acc = true then now :: acceptedNows w outs else acceptedNows w outs := by
  by_cases h : wid = w ∧ acc = true
  · simp [acceptedNows, List.filter_cons, h]
  · simp [acceptedNows, List.filter_cons, h]

theorem runSubmits_cons (pc : PoolCoreState) (wid : String) (sh : Share) (now : Int)
    (rest : List (String × Share × Int)) :
    runSubmits pc ((wid, sh, now) :: rest) =
      ((runSubmits (submitShare pc wid (some sh) now).2 rest).1,
        (wid, now, (submitShare pc wid (some sh) now).1.isNone) ::
          (runSubmits (submitShare pc wid (some sh) now).2 rest).2) := rfl

theorem runSubmits_chain (evs : List (String × Share × Int)) :
    ∀ (pc : PoolCoreState) (w : String),
      List.Chain' (fun a b => a + pc.interval ≤ b)
        ((lookupA pc.lastSubmission w).toList ++ acceptedNows w (runSubmits pc evs).2) := by
  induction evs with
  | nil =>
      intro pc w
      cases ho : lookupA pc.lastSubmission w <;> simp [runSubmits, acceptedNows]
  | cons ev rest ih =>
      intro pc w
      obtain ⟨wid, sh, now⟩ := ev
      rw [runSubmits_cons]
      cases hr : (submitShare pc wid (some sh) now).1 with
      | some e =>
          have hst := submitShare_err pc wid (some sh) now e hr
          simp only [Option.isNone_some]
          rw [acceptedNows_cons, if_neg (by simp), hst]
          exact ih pc w
      | none =>
          have hlast := (submitShare_ok pc wid sh now hr).1
          have hint := (submitShare_ok pc wid sh now hr).2.1
          have hgap := (submitShare_ok pc wid sh now hr).2.2
          simp only [Option.isNone_none]
          rw [acceptedNows_cons]
          have hIH := ih (submitShare pc wid (some sh) now).2 w
          rw [hint, hlast] at hIH
          by_cases hww : wid = w
          · rw [if_pos ⟨hww, rfl⟩]
            have hself : lookupA (insertA pc.lastSubmission wid now) w = some now := by
              rw [hww]
              exact lookupA_insertA_self _ _ _
            rw [hself] at hIH
            cases ho : lookupA pc.lastSubmission w with
            | none => simpa using hIH
            | some t =>
                have hot : lookupA pc.lastSubmission wid = some t := by rw [hww]; exact ho
                have hgt : pc.interval ≤ now - t := hgap t hot
                simp only [Option.toList_some, List.cons_append, List.nil_append]
                refine List.chain'_cons.mpr ⟨?_, by simpa using hIH⟩
                omega
          · rw [if_neg (fun hcon => hww hcon.1)]
            rw [lookupA_insertA_ne _ _ _ _ hww] at hIH
            exact hIH

theorem chain_ge_head (i : Int) (hi : 0 ≤ i) : ∀ (a : Int) (l : List Int),
    List.Chain' (fun x y => x + i ≤ y) (a :: l) → ∀ b ∈ l, a + i ≤ b := by
  intro a l
  induction l generalizing a with
  | nil => intro _ b hb; simp at hb
  | cons c cs ih =>
      intro hch b hb
      have hac : a + i ≤ c := (List.chain'_cons.mp hch).1
      rcases List.mem_cons.mp hb with hb | hb
      · exact hb ▸ hac
      · have := ih c (List.chain'_cons.mp hch).2 b hb
        omega

theorem chain_pairwise (i : Int) (hi : 0 ≤ i) : ∀ l : List Int,
    List.Chain' (fun x y => x + i ≤ y) l → List.Pairwise (fun x y => x + i ≤ y) l := by
  intro l
  induction l with
  | nil => intro _; exact List.Pairwise.nil
  | cons a l ih =>
      intro hch
      exact List.Pairwise.cons (chain_ge_head i hi a l hch) (ih hch.tail)

theorem validateShareBasic_spec (s : Share) (now : Int) :
    validateShareBasic s now ≠ none ↔
      (s.JobID = "" ∨ s.WorkerID = "" ∨ s.Nonce = "" ∨ s.Hash = "" ∨
        s.Timestamp = 0 ∨ 300 < now - s.Timestamp) := by
  unfold validateShareBasic
  split_ifs with h1 h2
  · exact iff_of_true (by simp) (by tauto)
  · exact iff_of_true (by simp) (by tauto)
  · exact iff_of_false (by simp) (by tauto)

theorem processShare_active_desc {σ : Type} (ops : StoreOps σ) (jobs : List (String × Job))
    (ttl : Int) (fraud : FraudState) (store : Option σ) (s : Share) (now : Int)
    (h1 : validateShareBasic s now = none)
    (h2 : isJobActive jobs ttl s.JobID now = true) :
    (processShare ops jobs ttl fraud store s now).result.Description =
        "blocked by antifraud: " ++
          (evaluateShare fraud s.WorkerID s.IP s.Nonce s.Hash s.Timestamp now).1.Reason ∨
      (processShare ops jobs ttl fraud store s now).result.Description = "duplicate share ignored" ∨
      (processShare ops jobs ttl fraud store s now).result.Description = "failed to persist share" ∨
      (processShare ops jobs ttl fraud store s now).result.Description = "share accepted" := by
  cases hf : (evaluateShare fraud s.WorkerID s.IP s.Nonce s.Hash s.Timestamp now).1.Flagged with
  | true =>
      rw [processShare_flagged ops jobs ttl fraud store s now h1 h2 hf]
      left
      rfl
  | false =>
      unfold processShare
      rw [h1]
      simp only [h2, not_true, if_false, hf]
      cases store with
      | none => simp
      | some st =>
          simp only [Bool.false_eq_true, if_false]
          split
          · simp
          · split <;> simp

theorem evaluateShare_lrBlock (st : FraudState) (m ip n hsh : String) (ts now : Int)
    (hskew : ¬ (ts = 0 ∨ now + clockSkewTolerance < ts ∨ clockSkewTolerance < now - ts))
    (hblk : (logRequest st (extractSubnet ip) n now).1 = ThreatLevel.Block) :
    evaluateShare st m ip n hsh ts now =
      (⟨true, "rate limit subnet/24 exceeded (greylisted)", ThreatLevel.Block⟩,
        (logRequest st (extractSubnet ip) n now).2) := by
  unfold evaluateShare
  dsimp only
  rw [if_neg hskew, if_pos hblk]

theorem evaluateShare_reason_not_subnet (st : FraudState) (m ip n hsh : String) (ts now : Int)
    (hskew : ¬ (ts = 0 ∨ now + clockSkewTolerance < ts ∨ clockSkewTolerance < now - ts))
    (hnb : ¬ (logRequest st (extractSubnet ip) n now).1 = ThreatLevel.Block) :
    (evaluateShare st m ip n hsh ts now).1.Reason ≠
      "rate limit subnet/24 exceeded (greylisted)" := by
  unfold evaluateShare
  dsimp only
  rw [if_neg hskew, if_neg hnb]
  split_ifs
  · rcases checkNonceReuse_reasons (logRequest st (extractSubnet ip) n now).2 m n now with h | h <;>
      simp [h]
  · rcases checkNonceReuse_reasons (logRequest st (extractSubnet ip) n now).2 m n now with h | h <;>
      simp [h]
  · rcases markToken_reasons
        (checkNonceReuse (logRequest st (extractSubnet ip) n now).2 m n now).2 hsh now with
      h | h | h <;> simp [h]
  · rcases markToken_reasons
        (checkNonceReuse (logRequest st (extractSubnet ip) n now).2 m n now).2 hsh now with
      h | h | h <;> simp [h]
  · simp
  · simp

theorem lookupA_eq_none {α : Type} (l : List (String × α)) (key : String)
    (h : key ∉ l.map Prod.fst) : lookupA l key = none := by
  induction l with
  | nil => rfl
  | cons q rest ih =>
      obtain ⟨k0, v0⟩ := q
      simp only [List.map_cons, List.mem_cons] at h
      push_neg at h
      simp only [lookupA]
      rw [if_neg (fun hc => h.1 hc.symm)]
      exact ih h.2

theorem lookupA_filter_eq {α : Type} (l : List (String × α)) (p : String × α → Bool)
    (key : String) (hnd : (l.map Prod.fst).Nodup) :
    lookupA (l.filter p) key =
      (match lookupA l key with
       | some v => if p (key, v) = true then some v else none
       | none => none) := by
  induction l with
  | nil => rfl
  | cons q rest ih =>
      obtain ⟨k0, v0⟩ := q
      have hnd0 : (k0 :: List.map Prod.fst rest).Nodup := by
        simpa using hnd
      have hnd2 : k0 ∉ List.map Prod.fst rest ∧ (List.map Prod.fst rest).Nodup :=
        List.nodup_cons.mp hnd0
      by_cases hq : k0 = key
      · subst hq
        cases hp : p (k0, v0)
        · have hnone : lookupA (rest.filter p) k0 = none := by
            refine lookupA_eq_none _ _ (fun hmem => hnd2.1 ?_)
            rcases List.mem_map.mp hmem with ⟨q2, hq2, hfst⟩
            exact hfst ▸ List.mem_map_of_mem Prod.fst (List.mem_of_mem_filter hq2)
          simp [List.filter_cons, hp, lookupA, hnone]
        · simp [List.filter_cons, hp, lookupA]
      · cases hp : p (k0, v0) <;>
          simp [List.filter_cons, hp, lookupA, hq, ih hnd2.2]

/-- Concrete job fixture: target is the all-zeros string, and
`ExpiresAt` (90) is already in the past at processing time 100 while
`CreatedAt` (100) is fresh. -/
def cxJob : Job := ⟨"job-1", "aa", zeros64, 100, 90, 100, true⟩

/-- Active-job map holding the fixture job. -/
def cxJobs : List (String × Job) := [("job-1", cxJob)]

/-- Concrete well-shaped share fixture referencing the fixture job. -/
def cxShare : Share := ⟨"s1", "job-1", "w1", "00000000", "beef", 1, 95, "10.0.0.1"⟩

/-- C1: the accept decision of the share-processing pipeline
(`Pool.ProcessShare`) contains no cryptographic gate: with a nil store,
a share is accepted exactly when it passes the shape, job-binding and
fraud gates, independently of whether
`hex(SHA-256(job.data ++ nonce)) < job.target` holds; and for any
store, the entire processing outcome is invariant under arbitrary
rewriting of every job's `Data` and `Target` fields (any job map
transformation preserving `CreatedAt`).  The comparison
`checkDifficulty (hashJob ...)` exists in the source but is never
invoked by `ProcessShare`. -/
theorem C1_no_crypto_gate {σ : Type} (ops : StoreOps σ) (jobs : List (String × Job))
    (ttl : Int) (fraud : FraudState) (s : Share) (now : Int) :
    ((processShare ops jobs ttl fraud none s now).result.Valid = true ↔
      (validateShareBasic s now = none ∧ isJobActive jobs ttl s.JobID now = true ∧
        (evaluateShare fraud s.WorkerID s.IP s.Nonce s.Hash s.Timestamp now).1.Flagged = false)) ∧
    (∀ (store : Option σ) (f : Job → Job), (∀ j, (f j).CreatedAt = j.CreatedAt) →
      processShare ops (jobs.map (fun p => (p.1, f p.2))) ttl fraud store s now =
        processShare ops jobs ttl fraud store s now) := by
  constructor
  · constructor
    · exact processShare_valid_gates ops jobs ttl fraud none s now
    · rintro ⟨h1, h2, h3⟩
      rw [processShare_nilStore ops jobs ttl fraud s now h1 h2 h3]
  · intro store f hf
    unfold processShare
    rw [isJobActive_mapJob jobs ttl s.JobID now f hf]

/-- C1 counterexample: the fixture share is accepted by the pipeline
although its recomputed digest is not lexicographically below the job's
(all-zeros) target, refuting the claimed equivalence between acceptance
and the cryptographic condition. -/
theorem C1_counterexample :
    (processShare (σ := InternalStore) internalStoreOps cxJobs 30 emptyFraud none
        cxShare 100).result.Valid = true ∧
      checkDifficulty (hashJob cxJob.Data cxShare.Nonce) cxJob.Target = false := by
  constructor
  · decide
  · exact checkDifficulty_hashJob_zeros cxJob.Data cxShare.Nonce

/-- C1 witness: the amended equivalence applied at the concrete fixture. -/
theorem C1_witness :
    (processShare (σ := InternalStore) internalStoreOps cxJobs 30 emptyFraud none
        cxShare 100).result.Valid = true :=
  (C1_no_crypto_gate internalStoreOps cxJobs 30 emptyFraud cxShare 100).1.mpr
    ⟨by decide, by decide, by decide⟩

/-- C7: per-worker rate-limit monotonicity of `PoolCore.SubmitShare`:
for any linearised sequence of submissions (each carrying the clock
value its goroutine read, with no monotonicity assumed), the accepted
submissions of any fixed worker have clock values pairwise at least the
rate interval apart; and a submission arriving within the interval of
the worker's recorded last submission is rejected with
"rate limit exceeded". -/
theorem C7_rate_limit_monotone (pc : PoolCoreState) (evs : List (String × Share × Int))
    (w : String) (h0 : pc.lastSubmission = []) (hi : 0 ≤ pc.interval) :
    List.Pairwise (fun a b => a + pc.interval ≤ b) (acceptedNows w (runSubmits pc evs).2) ∧
    (∀ (pc2 : PoolCoreState) (wid : String) (sh : Share) (now last : Int) (job : Job)
        (w2 : Worker),
      lookupA pc2.activeJobs sh.JobID = some job → ¬ pc2.ttlJob < now - job.CreatedAt →
      lookupA pc2.workers wid = some w2 → w2.connected = true →
      lookupA pc2.lastSubmission wid = some last → now - last < pc2.interval →
      (submitShare pc2 wid (some sh) now).1 = some "rate limit exceeded") := by
  constructor
  · refine chain_pairwise pc.interval hi _ ?_
    have h := runSubmits_chain evs pc w
    rw [h0] at h
    simpa [lookupA] using h
  · intro pc2 wid sh now last job w2 hj ht hw hc hl hr
    simp [submitShare, hj, ht, hw, hc, hl, hr]

/-- Worker map fixture for the submission-trace scenarios. -/
def wkState : PoolCoreState :=
  ⟨[("w1", ⟨"w1", true⟩)], [("j1", ⟨"j1", "d", "t", 100, 130, 1, true⟩)], [], [], 30, 2⟩

/-- Share fixture submitted in the trace scenarios. -/
def wkShare : Share := ⟨"x", "j1", "w1", "n", "h", 1, 100, "1.2.3.4"⟩

/-- C7 witness: on a concrete trace (accepted at 100, rejected at 101,
accepted at 103) the accepted clock values are pairwise two seconds
apart. -/
theorem C7_witness :
    List.Pairwise (fun a b => a + wkState.interval ≤ b)
      (acceptedNows "w1"
        (runSubmits wkState [("w1", wkShare, 100), ("w1", wkShare, 101), ("w1", wkShare, 103)]).2) :=
  (C7_rate_limit_monotone wkState [("w1", wkShare, 100), ("w1", wkShare, 101), ("w1", wkShare, 103)]
    "w1" rfl (by decide)).1

/-- C8: the background sweeper (`cleanGreylist` tick) drops exactly the
greylist entries older than the greylist timeout and touches nothing
else: the subnet, token and nonce windows are left unchanged, so the
inspector state is not emptied by silence. -/
theorem C8_sweeper_only_greylist (st : FraudState) (now : Int)
    (hnd : (st.Greylist.map Prod.fst).Nodup) :
    (cleanGreylistStep st now).Subnets = st.Subnets ∧
    (cleanGreylistStep st now).Tokens = st.Tokens ∧
    (cleanGreylistStep st now).NonceMap = st.NonceMap ∧
    (∀ key, lookupA (cleanGreylistStep st now).Greylist key =
      (match lookupA st.Greylist key with
       | some added => if now - added ≤ greylistTimeout then some added else none
       | none => none)) := by
  refine ⟨rfl, rfl, rfl, ?_⟩
  intro key
  unfold cleanGreylistStep
  dsimp only
  rw [lookupA_filter_eq st.Greylist _ key hnd]
  cases h : lookupA st.Greylist key with
  | none => rfl
  | some added =>
      dsimp only
      by_cases hc : greylistTimeout < now - added
      · rw [if_neg (by simp only [decide_eq_true_eq]; omega), if_neg (by omega)]
      · rw [if_pos (by simp only [decide_eq_true_eq]; omega), if_pos (by omega)]

/-- Fraud-state fixture with a stale subnet-window entry and nothing
else. -/
def c8Fraud : FraudState := ⟨[], [("10.0.0.0", [0])], [], []⟩

/-- C8 counterexample: after arbitrarily long silence (sweep at time
1000000 with the last event at time 0) the subnet window still holds its
entry, so the inspector state is not "empty except for greylist
entries" as claimed. -/
theorem C8_counterexample :
    (cleanGreylistStep c8Fraud 1000000).Subnets = [("10.0.0.0", [0])] ∧
      (cleanGreylistStep c8Fraud 1000000).Subnets ≠ [] := by
  constructor
  · rfl
  · decide

/-- C8 witness: the amended sweep description applied at the fixture. -/
theorem C8_witness :
    (cleanGreylistStep c8Fraud 1000000).Subnets = c8Fraud.Subnets :=
  (C8_sweeper_only_greylist c8Fraud 1000000 (by decide)).1

/-- C9: on a pool whose `ShareStore` is nil, every share passing the
shape, job-binding and fraud gates is accepted with valid=true and
description "share accepted", with no store interaction; two successive
submissions of the same share are both fully accepted whenever each
passes those gates. -/
theorem C9_nil_store {σ : Type} (ops : StoreOps σ) (jobs : List (String × Job)) (ttl : Int)
    (fraud : FraudState) (s : Share) (now1 now2 : Int)
    (h1 : validateShareBasic s now1 = none)
    (h2 : isJobActive jobs ttl s.JobID now1 = true)
    (h3 : (evaluateShare fraud s.WorkerID s.IP s.Nonce s.Hash s.Timestamp now1).1.Flagged = false)
    (h4 : validateShareBasic s now2 = none)
    (h5 : isJobActive jobs ttl s.JobID now2 = true)
    (h6 : (evaluateShare (processShare ops jobs ttl fraud none s now1).fraud
        s.WorkerID s.IP s.Nonce s.Hash s.Timestamp now2).1.Flagged = false) :
    (processShare ops jobs ttl fraud none s now1).result =
        ⟨ShareStatus.ShareAccepted, "share accepted", none, true⟩ ∧
    (processShare ops jobs ttl fraud none s now1).store = none ∧
    (processShare ops jobs ttl (processShare ops jobs ttl fraud none s now1).fraud
        none s now2).result =
        ⟨ShareStatus.ShareAccepted, "share accepted", none, true⟩ := by
  have e1 := processShare_nilStore ops jobs ttl fraud s now1 h1 h2 h3
  refine ⟨by rw [e1], by rw [e1], ?_⟩
  rw [processShare_nilStore ops jobs ttl _ s now2 h4 h5 h6]

/-- C9 witness: the fixture share processed twice (16 s apart, so the
nonce window has expired) on a nil-store pool; both runs accept it. -/
theorem C9_witness :
    (processShare (σ := InternalStore) internalStoreOps cxJobs 30 emptyFraud none
        cxShare 100).result = ⟨ShareStatus.ShareAccepted, "share accepted", none, true⟩ ∧
    (processShare (σ := InternalStore) internalStoreOps cxJobs 30 emptyFraud none
        cxShare 100).store = none ∧
    (processShare (σ := InternalStore) internalStoreOps cxJobs 30
        (processShare (σ := InternalStore) internalStoreOps cxJobs 30 emptyFraud none
          cxShare 100).fraud none cxShare 116).result =
        ⟨ShareStatus.ShareAccepted, "share accepted", none, true⟩ :=
  C9_nil_store internalStoreOps cxJobs 30 emptyFraud cxShare 100 116
    (by decide) (by decide) (by decide) (by decide) (by decide) (by decide)

/-- C10: whenever `PoolCore.SubmitShare` returns an error, the engine
state is unchanged; in particular the worker's recorded last-submission
time and share list keep their previous values, so only accepted
submissions advance the rate-limit clock. -/
theorem C10_reject_preserves_state (pc : PoolCoreState) (wid : String) (s : Option Share)
    (now : Int) (e : String) (h : (submitShare pc wid s now).1 = some e) :
    (submitShare pc wid s now).2 = pc ∧
    (submitShare pc wid s now).2.lastSubmission = pc.lastSubmission ∧
    (submitShare pc wid s now).2.workerShares = pc.workerShares := by
  have := submitShare_err pc wid s now e h
  exact ⟨this, by rw [this], by rw [this]⟩

/-- Engine state with a recorded last submission at time 100 for the
rate-limit rejection scenario. -/
def wkStateLate : PoolCoreState :=
  ⟨[("w1", ⟨"w1", true⟩)], [("j1", ⟨"j1", "d", "t", 100, 130, 1, true⟩)], [], [("w1", 100)], 30, 2⟩

/-- C10 witness: a rate-limited submission (1 s after the recorded last
submission) leaves the engine state untouched. -/
theorem C10_witness :
    (submitShare wkStateLate "w1" (some wkShare) 101).2 = wkStateLate :=
  (C10_reject_preserves_state wkStateLate "w1" (some wkShare) 101 "rate limit exceeded"
    (by decide)).1

/-- C3 (amended): the fraud gate of `Pool.ProcessShare` rejects on any
flagged verdict - which includes WARN-level verdicts such as clock skew
and nonce reuse, since `EvaluateShare` sets `Flagged` for WARN as well
as BLOCK - with description "blocked by antifraud: <reason>"; only an
unflagged (NoThreat) verdict lets the share proceed to the duplicate
and persistence gates, where it is accepted or fails persistence. -/
theorem C3_flagged_rejects {σ : Type} (ops : StoreOps σ) (jobs : List (String × Job))
    (ttl : Int) (fraud : FraudState) (store : Option σ) (s : Share) (now : Int)
    (h1 : validateShareBasic s now = none)
    (h2 : isJobActive jobs ttl s.JobID now = true) :
    ((evaluateShare fraud s.WorkerID s.IP s.Nonce s.Hash s.Timestamp now).1.Flagged = true →
      (processShare ops jobs ttl fraud store s now).result =
        ⟨ShareStatus.ShareInvalid,
          "blocked by antifraud: " ++
            (evaluateShare fraud s.WorkerID s.IP s.Nonce s.Hash s.Timestamp now).1.Reason,
          some "antifraud rejection", false⟩) ∧
    ((evaluateShare fraud s.WorkerID s.IP s.Nonce s.Hash s.Timestamp now).1.Flagged = false →
      (processShare ops jobs ttl fraud store s now).result.Status = ShareStatus.ShareAccepted ∨
        (processShare ops jobs ttl fraud store s now).result.Description =
          "failed to persist share") := by
  constructor
  · intro hf
    rw [processShare_flagged ops jobs ttl fraud store s now h1 h2 hf]
  · intro hf
    cases store with
    | none =>
        rw [processShare_nilStore ops jobs ttl fraud s now h1 h2 hf]
        left
        rfl
    | some st =>
        unfold processShare
        rw [h1]
        simp only [h2, not_true, if_false, hf, Bool.false_eq_true]
        split
        · left
          rfl
        · split
          · left
            rfl
          · right
            rfl

/-- Job map fixture whose job is fresh at time 300. -/
def c3Jobs : List (String × Job) := [("job-1", ⟨"job-1", "aa", zeros64, 290, 320, 100, true⟩)]

/-- Share fixture whose timestamp is 200 s old: it passes the shape
check (within 5 min) but trips the inspector's 2-min clock-skew WARN. -/
def c3Share : Share := ⟨"s3", "job-1", "w1", "00000000", "beef", 1, 100, "10.0.0.1"⟩

/-- C3 counterexample: a WARN-level verdict (clock skew) does not
proceed: the pipeline rejects the share with "blocked by antifraud:
clock skew out of tolerance", refuting "only level BLOCK produces the
INVALID rejection". -/
theorem C3_counterexample :
    (evaluateShare emptyFraud c3Share.WorkerID c3Share.IP c3Share.Nonce c3Share.Hash
        c3Share.Timestamp 300).1.Level = ThreatLevel.Warn ∧
    (processShare (σ := InternalStore) internalStoreOps c3Jobs 30 emptyFraud none
        c3Share 300).result =
      ⟨ShareStatus.ShareInvalid, "blocked by antifraud: clock skew out of tolerance",
        some "antifraud rejection", false⟩ := by
  constructor
  · decide
  · decide

/-- C3 witness: the amended rejection rule applied at the concrete
WARN-flagged fixture. -/
theorem C3_witness :
    (processShare (σ := InternalStore) internalStoreOps c3Jobs 30 emptyFraud none
        c3Share 300).result =
      ⟨ShareStatus.ShareInvalid,
        "blocked by antifraud: " ++
          (evaluateShare emptyFraud c3Share.WorkerID c3Share.IP c3Share.Nonce c3Share.Hash
            c3Share.Timestamp 300).1.Reason,
        some "antifraud rejection", false⟩ :=
  (C3_flagged_rejects internalStoreOps c3Jobs 30 emptyFraud none c3Share 300
    (by decide) (by decide)).1 (by decide)

/-- C5 (amended): for shape-passing shares, the rejection "job not
active or expired" occurs exactly when the job id is empty, unknown in
the facade's active-job map, or older (by `CreatedAt`) than the pool's
30-second TTL; the job's own `ExpiresAt` field is never consulted, so a
share referencing a job past its `expires_at` can still be accepted
while `now - created_at` is within the TTL. -/
theorem C5_job_gate {σ : Type} (ops : StoreOps σ) (jobs : List (String × Job))
    (ttl : Int) (fraud : FraudState) (store : Option σ) (s : Share) (now : Int)
    (h1 : validateShareBasic s now = none) :
    ((processShare ops jobs ttl fraud store s now).result.Description =
        "job not active or expired" ↔ isJobActive jobs ttl s.JobID now = false) ∧
    (isJobActive jobs ttl s.JobID now = true ↔
      (s.JobID ≠ "" ∧ ∃ j, lookupA jobs s.JobID = some j ∧ now - j.CreatedAt ≤ ttl)) := by
  constructor
  · constructor
    · intro hd
      cases hj : isJobActive jobs ttl s.JobID now with
      | false => rfl
      | true =>
          exfalso
          rcases processShare_active_desc ops jobs ttl fraud store s now h1 hj with
            h | h | h | h
          · rw [h] at hd
            have hrs := evaluateShare_reasons fraud s.WorkerID s.IP s.Nonce s.Hash s.Timestamp now
            simp only [List.mem_cons, List.not_mem_nil, or_false] at hrs
            rcases hrs with hr | hr | hr | hr | hr | hr | hr <;>
              (rw [hr] at hd; exact absurd hd (by decide))
          · rw [h] at hd
            exact absurd hd (by decide)
          · rw [h] at hd
            exact absurd hd (by decide)
          · rw [h] at hd
            exact absurd hd (by decide)
    · intro hj
      rw [processShare_jobFail ops jobs ttl fraud store s now h1 hj]
  · unfold isJobActive
    split_ifs with he
    · simp [he]
    · cases hl : lookupA jobs s.JobID with
      | none => simp [he]
      | some j => simp [he, hl]

/-- C5 counterexample: the fixture job's `expires_at` (90) has passed at
processing time 100, the job id is bound in the map, and the share is
nevertheless accepted - refuting "once now > job.expires_at no share
referencing that job is ever accepted". -/
theorem C5_counterexample :
    cxJob.ExpiresAt < 100 ∧ lookupA cxJobs cxShare.JobID = some cxJob ∧
    (processShare (σ := InternalStore) internalStoreOps cxJobs 30 emptyFraud none
        cxShare 100).result.Valid = true := by
  refine ⟨by decide, by decide, by decide⟩

/-- Stale-by-TTL job map: the job was created at time 0, so at time 100
it is older than the 30-second pool TTL. -/
def c5Jobs : List (String × Job) := [("job-1", ⟨"job-1", "aa", zeros64, 0, 30, 100, true⟩)]

/-- C5 witness: the amended gate applied concretely: a share whose job
is older than the pool TTL is rejected with "job not active or
expired". -/
theorem C5_witness :
    (processShare (σ := InternalStore) internalStoreOps c5Jobs 30 emptyFraud none
        cxShare 100).result.Description = "job not active or expired" :=
  (C5_job_gate internalStoreOps c5Jobs 30 emptyFraud none cxShare 100 (by decide)).1.mpr
    (by decide)

/-- C4 (amended): `Pool.ProcessShare` returns INVALID with description
"basic validation failed" exactly when one of `JobID`, `WorkerID`,
`Nonce`, `Hash` is empty (the hash field is required, not optional), or
the timestamp is zero or more than five minutes in the past.  The shape
check has no future-timestamp bound, no nonce-format check, and no
difficulty check. -/
theorem C4_shape_gate {σ : Type} (ops : StoreOps σ) (jobs : List (String × Job))
    (ttl : Int) (fraud : FraudState) (store : Option σ) (s : Share) (now : Int) :
    ((processShare ops jobs ttl fraud store s now).result.Status = ShareStatus.ShareInvalid ∧
      (processShare ops jobs ttl fraud store s now).result.Description =
        "basic validation failed") ↔
      (s.JobID = "" ∨ s.WorkerID = "" ∨ s.Nonce = "" ∨ s.Hash = "" ∨
        s.Timestamp = 0 ∨ 300 < now - s.Timestamp) := by
  constructor
  · rintro ⟨hst, hd⟩
    by_contra hno
    have hb : validateShareBasic s now = none := by
      by_contra hbne
      exact hno ((validateShareBasic_spec s now).mp hbne)
    cases hj : isJobActive jobs ttl s.JobID now with
    | false =>
        rw [processShare_jobFail ops jobs ttl fraud store s now hb hj] at hd
        simp at hd
    | true =>
        rcases processShare_active_desc ops jobs ttl fraud store s now hb hj with h | h | h | h
        · rw [h] at hd
          have hrs := evaluateShare_reasons fraud s.WorkerID s.IP s.Nonce s.Hash s.Timestamp now
          simp only [List.mem_cons, List.not_mem_nil, or_false] at hrs
          rcases hrs with hr | hr | hr | hr | hr | hr | hr <;>
            (rw [hr] at hd; exact absurd hd (by decide))
        · rw [h] at hd
          exact absurd hd (by decide)
        · rw [h] at hd
          exact absurd hd (by decide)
        · rw [h] at hd
          exact absurd hd (by decide)
  · intro hbad
    have hb : validateShareBasic s now ≠ none := (validateShareBasic_spec s now).mpr hbad
    cases hbe : validateShareBasic s now with
    | none => exact absurd hbe hb
    | some e =>
        rw [processShare_basicFail ops jobs ttl fraud store s now e hbe]
        exact ⟨rfl, rfl⟩

/-- Share fixture identical to the well-shaped one except for an empty
client hash field. -/
def c4Share : Share := ⟨"s4", "job-1", "w1", "00000000", "", 1, 95, "10.0.0.1"⟩

/-- C4 counterexample: a share whose only defect is an empty hash field
fails the shape check, refuting "the client-supplied hash field is
optional and an empty hash alone does not fail the shape check". -/
theorem C4_counterexample :
    c4Share.Hash = "" ∧ c4Share.JobID ≠ "" ∧ c4Share.WorkerID ≠ "" ∧ c4Share.Nonce ≠ "" ∧
    c4Share.Timestamp ≠ 0 ∧ 100 - c4Share.Timestamp ≤ 300 ∧
    (processShare (σ := InternalStore) internalStoreOps cxJobs 30 emptyFraud none
        c4Share 100).result.Description = "basic validation failed" := by
  decide

/-- C4 witness: the amended shape-gate equivalence applied at the
empty-hash fixture. -/
theorem C4_witness :
    (processShare (σ := InternalStore) internalStoreOps cxJobs 30 emptyFraud none
        c4Share 100).result.Status = ShareStatus.ShareInvalid ∧
    (processShare (σ := InternalStore) internalStoreOps cxJobs 30 emptyFraud none
        c4Share 100).result.Description = "basic validation failed" :=
  (C4_shape_gate internalStoreOps cxJobs 30 emptyFraud none c4Share 100).mpr (by decide)

/-- C6 (amended): past the clock-skew gate, each evaluation appends
`now` to both the pruned /24-subnet window and the pruned nonce-keyed
token window; the BLOCK verdict with reason
"rate limit subnet/24 exceeded (greylisted)" is returned exactly when
the subnet window then exceeds 20 entries (in which case the subnet is
greylisted) or the nonce token window reaches 10 entries (in which case
the greylist is NOT touched). -/
theorem C6_subnet_rate (st : FraudState) (m ip n hsh : String) (ts now : Int)
    (hskew : ¬ (ts = 0 ∨ now + clockSkewTolerance < ts ∨ clockSkewTolerance < now - ts)) :
    ((evaluateShare st m ip n hsh ts now).1.Reason =
        "rate limit subnet/24 exceeded (greylisted)" ↔
      (maxRequestsPerSubnet <
          (pruneOld ((lookupA st.Subnets (extractSubnet (extractSubnet ip))).getD []) now ++
            [now]).length ∨
        nonceReuseBlock ≤ (pruneOld ((lookupA st.Tokens n).getD []) now ++ [now]).length)) ∧
    (maxRequestsPerSubnet <
        (pruneOld ((lookupA st.Subnets (extractSubnet (extractSubnet ip))).getD []) now ++
          [now]).length →
      (evaluateShare st m ip n hsh ts now).2.Greylist =
        insertA st.Greylist (extractSubnet (extractSubnet ip)) now) ∧
    (¬ maxRequestsPerSubnet <
        (pruneOld ((lookupA st.Subnets (extractSubnet (extractSubnet ip))).getD []) now ++
          [now]).length →
      nonceReuseBlock ≤ (pruneOld ((lookupA st.Tokens n).getD []) now ++ [now]).length →
      (evaluateShare st m ip n hsh ts now).2.Greylist = st.Greylist) := by
  have hiff := logRequest_block_iff st (extractSubnet ip) n now
  refine ⟨⟨?_, ?_⟩, ?_, ?_⟩
  · intro hr
    by_cases hblk : (logRequest st (extractSubnet ip) n now).1 = ThreatLevel.Block
    · exact hiff.mp hblk
    · exact absurd hr (evaluateShare_reason_not_subnet st m ip n hsh ts now hskew hblk)
  · intro hcond
    rw [evaluateShare_lrBlock st m ip n hsh ts now hskew (hiff.mpr hcond)]
  · intro hrec
    rw [evaluateShare_lrBlock st m ip n hsh ts now hskew (hiff.mpr (Or.inl hrec))]
    dsimp only
    rw [logRequest_greylist, if_pos hrec]
  · intro hrec htok
    rw [evaluateShare_lrBlock st m ip n hsh ts now hskew (hiff.mpr (Or.inr htok))]
    dsimp only
    rw [logRequest_greylist, if_neg hrec]

/-- Fraud-state fixture whose token window for nonce "deadbeef" already
holds nine recent entries; the subnet windows are empty. -/
def c6Fraud : FraudState :=
  ⟨[], [], [("deadbeef", [95, 95, 95, 95, 95, 95, 95, 95, 95])], []⟩

/-- C6 counterexample: the evaluation returns the subnet-rate BLOCK
reason although the subnet's window holds only one entry (far below 20)
and the greylist stays empty - the verdict was produced by the
nonce-token path of `LogRequest` - and the actual reason string carries
the extra " (greylisted)" suffix, differing from the claimed reason. -/
theorem C6_counterexample :
    (evaluateShare c6Fraud "m1" "10.0.0.1" "deadbeef" "hh" 95 100).1.Reason =
        "rate limit subnet/24 exceeded (greylisted)" ∧
    (evaluateShare c6Fraud "m1" "10.0.0.1" "deadbeef" "hh" 95 100).1.Reason ≠
        "rate limit subnet/24 exceeded" ∧
    (pruneOld ((lookupA c6Fraud.Subnets "10.0.0.0").getD []) 100 ++ [100]).length ≤ 20 ∧
    (evaluateShare c6Fraud "m1" "10.0.0.1" "deadbeef" "hh" 95 100).2.Greylist = [] := by
  decide

/-- C6 witness: the amended rule applied at the token-path fixture. -/
theorem C6_witness :
    (evaluateShare c6Fraud "m1" "10.0.0.1" "deadbeef" "hh" 95 100).2.Greylist =
      c6Fraud.Greylist :=
  (C6_subnet_rate c6Fraud "m1" "10.0.0.1" "deadbeef" "hh" 95 100 (by decide)).2.2
    (by decide) (by decide)

/-- C2 (amended): a share that passes the shape, job-binding and fraud
gates and whose id already exists in the Share Store (Exists returns
true with nil error) yields ACCEPTED / "duplicate share ignored" /
valid=true, and Save is not called (the store keeps the state left by
Exists).  However, processing the same share twice in immediate
succession does NOT yield two valid results: whenever the first call
returns valid=true, any second processing of the same share within the
15-second fraud window - against any job map, TTL and store - is
rejected (valid=false), because the inspector recorded the share's
nonce and flags its reuse (or an earlier gate fails first). -/
theorem C2_duplicate_idempotence {σ σ2 : Type} (ops : StoreOps σ) (ops2 : StoreOps σ2)
    (jobs jobs2 : List (String × Job)) (ttl ttl2 : Int) (fraud : FraudState)
    (store : Option σ) (store2 : Option σ2) (st : σ) (s : Share) (now1 now2 : Int) :
    (validateShareBasic s now1 = none →
      isJobActive jobs ttl s.JobID now1 = true →
      (evaluateShare fraud s.WorkerID s.IP s.Nonce s.Hash s.Timestamp now1).1.Flagged = false →
      (ops.existsFn st now1 s.ID).1 = (true, none) →
      (processShare ops jobs ttl fraud (some st) s now1).result =
          ⟨ShareStatus.ShareAccepted, "duplicate share ignored", none, true⟩ ∧
        (processShare ops jobs ttl fraud (some st) s now1).store =
          some (ops.existsFn st now1 s.ID).2) ∧
    ((processShare ops jobs ttl fraud store s now1).result.Valid = true →
      now2 - now1 ≤ windowSpan →
      (processShare ops2 jobs2 ttl2 (processShare ops jobs ttl fraud store s now1).fraud
          store2 s now2).result.Valid = false) := by
  constructor
  · intro h1 h2 h3 h4
    rw [processShare_duplicate ops jobs ttl fraud st s now1 h1 h2 h3 h4]
    exact ⟨rfl, rfl⟩
  · intro hv hwin
    obtain ⟨hb, hj, hf⟩ := processShare_valid_gates ops jobs ttl fraud store s now1 hv
    have hfr := processShare_pastGates_fraud ops jobs ttl fraud store s now1 hb hj
    have hnonce :
        lookupA ((lookupA (processShare ops jobs ttl fraud store s now1).fraud.NonceMap
            s.WorkerID).getD []) s.Nonce = some now1 := by
      rw [hfr]
      exact evaluateShare_unflagged_nonce fraud s.WorkerID s.IP s.Nonce s.Hash s.Timestamp now1 hf
    cases hb2 : validateShareBasic s now2 with
    | some e =>
        rw [processShare_basicFail ops2 jobs2 ttl2 _ store2 s now2 e hb2]
    | none =>
        cases hj2 : isJobActive jobs2 ttl2 s.JobID now2 with
        | false =>
            rw [processShare_jobFail ops2 jobs2 ttl2 _ store2 s now2 hb2 hj2]
        | true =>
            have hf2 : (evaluateShare (processShare ops jobs ttl fraud store s now1).fraud
                s.WorkerID s.IP s.Nonce s.Hash s.Timestamp now2).1.Flagged = true :=
              evaluateShare_seen_flagged _ s.WorkerID s.IP s.Nonce s.Hash s.Timestamp now2 now1
                hnonce hwin
            rw [processShare_flagged ops2 jobs2 ttl2 _ store2 s now2 hb2 hj2 hf2]

/-- Empty in-memory store fixture with the source's 45-second TTL. -/
def c2Store : InternalStore := ⟨[], 45⟩

/-- C2 counterexample: processing the fixture share twice in immediate
succession (1 s apart, store initially empty) yields valid=true then a
"blocked by antifraud: nonce reuse by miner within window" rejection
with valid=false, and the store holds exactly the one saved copy -
refuting "processing the same share twice yields two results both with
valid=true". -/
theorem C2_counterexample :
    (processShare internalStoreOps cxJobs 30 emptyFraud (some c2Store) cxShare 100).result.Valid =
        true ∧
    (processShare internalStoreOps cxJobs 30
        (processShare internalStoreOps cxJobs 30 emptyFraud (some c2Store) cxShare 100).fraud
        (processShare internalStoreOps cxJobs 30 emptyFraud (some c2Store) cxShare 100).store
        cxShare 101).result =
      ⟨ShareStatus.ShareInvalid, "blocked by antifraud: nonce reuse by miner within window",
        some "antifraud rejection", false⟩ ∧
    (processShare internalStoreOps cxJobs 30 emptyFraud (some c2Store) cxShare 100).store =
      some ⟨[("s1", cxShare)], 45⟩ := by
  refine ⟨by decide, by decide, by decide⟩

/-- Store fixture already holding the fixture share under its id. -/
def c2StoreDup : InternalStore := ⟨[("s1", cxShare)], 45⟩

/-- C2 witness: the duplicate branch applied concretely - a share whose
id exists is accepted as "duplicate share ignored" with no save - and
the refire rule applied concretely at the immediate-resubmission
fixture. -/
theorem C2_witness :
    (processShare internalStoreOps cxJobs 30 emptyFraud (some c2StoreDup) cxShare 100).result =
        ⟨ShareStatus.ShareAccepted, "duplicate share ignored", none, true⟩ ∧
    (processShare internalStoreOps cxJobs 30
        (processShare internalStoreOps cxJobs 30 emptyFraud (some c2Store) cxShare 100).fraud
        (some c2Store) cxShare 101).result.Valid = false :=
  ⟨((C2_duplicate_idempotence internalStoreOps internalStoreOps cxJobs cxJobs 30 30 emptyFraud
      (some c2StoreDup) (some c2StoreDup) c2StoreDup cxShare 100 101).1
      (by decide) (by decide) (by decide) (by decide)).1,
    (C2_duplicate_idempotence internalStoreOps internalStoreOps cxJobs cxJobs 30 30 emptyFraud
      (some c2Store) (some c2Store) c2Store cxShare 100 101).2
      (by decide) (by decide)⟩

end MiningPool

